import Mathlib

/-! hpiutil2: the scrambled file reader

A shallow embedding of `scrambledfile.cpp`, the methods of class
`scrambledfile`, and of the header constants of `hpifile.h`.

Conventions of the embedding

* `uint32_t` and `uint8_t` values are natural numbers, reduced explicitly where
  the C++ arithmetic wraps (`u32`, `u8`); `int` values are integers.
* `char` is a signed 8-bit type (`schar`), as on the x86 targets the program is
  written for; `EOF` is `-1`.
* The member `std::ifstream file` is the record `ifstream`: the bytes of the
  file, the get position, and the `failbit`. Its four operations follow the
  C++ standard library: once `failbit` is set every later `get`, `read`,
  `seekg` does nothing and `tellg` answers `-1`; the class never calls
  `clear()`.
* A caller's buffer `uint8_t *buf` is the list of the bytes of the object the
  pointer designates; its length is the capacity. Operations that write
  through the pointer answer `none` when the C++ code has undefined behaviour
  (a store past the capacity, or overflow of a signed loop counter).
-/

namespace Hpiutil

/-- A byte of a file or of a buffer (`uint8_t`). -/
abbrev Byte := Fin 256

/-- The end-of-file value of `std::char_traits<char>`. -/
def EOF : Int := -1

/-- Conversion of an integer value to `uint32_t`. -/
def u32 (x : Int) : Nat := (x % 4294967296).toNat

/-- Conversion of an integer value to `uint8_t`. -/
def u8 (x : Int) : Byte := ⟨(x % 256).toNat, by omega⟩

/-- Conversion of an integer value to `char` (signed, 8 bits). -/
def schar (x : Int) : Int := (x + 128) % 256 - 128

/-- The unary `~` on a `uint32_t`: every one of the 32 bits is flipped. -/
def not32 (x : Nat) : Nat := 4294967295 ^^^ x

/-- The standard library class `std::ifstream`, as far as the methods use it:
the state of a stream opened in binary mode on a file with contents `data`.
`pos` is the get position. `failbit` stands for `fail()`:
`get` and `read` set `eofbit` only together with `failbit`, and the class
looks at neither, so one flag is enough. -/
structure ifstream where
  data : List Byte
  pos : Nat
  failbit : Bool
deriving DecidableEq

namespace ifstream

/-- The call `tellg()`: `pos_type(-1)` when `fail()`, else the get position. -/
def tellg (f : ifstream) : Int :=
  if f.failbit then -1 else (f.pos : Int)

/-- The call `seekg(pos)` (and `seekg(pos, std::ios::beg)`): nothing happens
when `fail()`, else the get position is set; a file may be positioned past its
end. -/
def seekg (f : ifstream) (pos : Nat) : ifstream :=
  if f.failbit then f else { f with pos := pos }

/-- The call `get()`: the next byte as an `int` in `0..255`, or `EOF` with
`failbit` set when no byte is available. -/
def get (f : ifstream) : Int × ifstream :=
  if f.failbit then (EOF, f)
  else
    match f.data[f.pos]? with
    | some b => ((b.val : Int), { f with pos := f.pos + 1 })
    | none => (EOF, { f with failbit := true })

/-- The call `read(s, n)`: the bytes extracted (at most `n`, fewer when the
file ends first, none when `fail()`), and the stream afterwards; `failbit` is
set when fewer than `n` could be extracted. -/
def read (f : ifstream) (n : Nat) : List Byte × ifstream :=
  if f.failbit then ([], f)
  else
    let chunk := (f.data.drop f.pos).take n
    (chunk, { f with pos := f.pos + chunk.length, failbit := decide (chunk.length < n) })

end ifstream

/-- Modelled from the spec: the class declaration (`scrambledfile.h`) is not
among the sources. The data members are those the methods use: the input
stream `file`, the cipher state of the spec, "an effective 32-bit mask"
(`key`, a `uint32_t`) and "a boolean active flag" (`scrambled`). -/
structure scrambledfile where
  file : ifstream
  key : Nat
  scrambled : Bool
deriving DecidableEq

/-- The expression `((key ^ pos) ^ ~c) & 0x00ff` of the three `read`
overloads: `c` is the promoted operand of `~` (an `int`), and `~c` is
converted to `uint32_t` by the `^`. -/
def unscramble (key pos : Nat) (c : Int) : Nat :=
  ((key ^^^ pos) ^^^ u32 (~~~c)) &&& 0x00ff

/-- The bytes `chunk` stored through `buf` from its first byte on; `none`
when they do not fit (a store past the end of the destination). -/
def store (buf chunk : List Byte) : Option (List Byte) :=
  if chunk.length ≤ buf.length then some (chunk ++ buf.drop chunk.length) else none

/-- The loop `for (int i = 0; i < n; i++) buf[i] = (uint8_t)(((key ^ (base+i)) ^ ~buf[i]) & 0x00ff)`
from index `i` on; the list is the buffer from `buf[i]` on. -/
def unscrambleLoop (key base n : Nat) : Nat → List Byte → List Byte
  | _, [] => []
  | i, b :: bs =>
    if i < n then
      u8 (unscramble key ((base + i) % 4294967296) (b.val : Int)) :: unscrambleLoop key base n (i + 1) bs
    else b :: bs

/-- The statement `if (scrambled) { for (int i = 0; i < n; i++) ... }` of the
two buffer reads. The loop touches `buf[0..n-1]`; it is undefined when that
range leaves the buffer, or when `n >= 2^31`, where the `int` counter `i`
overflows. -/
def unscrambleBuf (scrambled : Bool) (key base n : Nat) (buf : List Byte) : Option (List Byte) :=
  if scrambled then
    if n ≤ buf.length ∧ n < 2147483648 then some (unscrambleLoop key base n 0 buf) else none
  else some buf

namespace scrambledfile

/-- The constructors `scrambledfile(fname)`: the file is opened (`failbit`
is set when that fails) and `scrambled` is cleared; `key` is not initialised,
`k0` is the value it happens to hold. -/
def ctor (data : List Byte) (openFails : Bool) (k0 : Nat) : scrambledfile :=
  { file := { data := data, pos := 0, failbit := openFails }, key := k0, scrambled := false }

/-- The method `uint8_t read()`. -/
def read (s : scrambledfile) : Byte × scrambledfile :=
  let oldpos := u32 s.file.tellg
  let r := s.file.get
  let ret : Int := schar r.1
  let ret : Int :=
    if s.scrambled && ret != EOF then schar (unscramble s.key oldpos ret : Nat) else ret
  (u8 ret, { s with file := r.2 })

/-- The method `uint32_t read(uint8_t *buf)`. `ptrSize` is `sizeof(buf)`, the
size of a pointer on the platform. The result is the value returned, the
buffer and the object afterwards. -/
def read_buffer (ptrSize : Nat) (s : scrambledfile) (buf : List Byte) :
    Option (Nat × List Byte × scrambledfile) :=
  let oldpos := u32 s.file.tellg
  let r := s.file.read ptrSize
  match store buf r.1 with
  | none => none
  | some buf1 =>
    let read := u32 ((u32 r.2.tellg : Int) - (oldpos : Int))
    match unscrambleBuf s.scrambled s.key oldpos read buf1 with
    | none => none
    | some buf2 => some (read, buf2, { s with file := r.2 })

/-- The method `uint32_t read(uint8_t *buf, const uint32_t off, const uint32_t len)`. -/
def read_buffer_at (s : scrambledfile) (buf : List Byte) (off len : Nat) :
    Option (Nat × List Byte × scrambledfile) :=
  let f1 := s.file.seekg off
  let r := f1.read len
  match store buf r.1 with
  | none => none
  | some buf1 =>
    match unscrambleBuf s.scrambled s.key off len buf1 with
    | none => none
    | some buf2 =>
      some (u32 ((u32 r.2.tellg : Int) - (off : Int)), buf2, { s with file := r.2 })

/-- The method `uint32_t readint()`. -/
def readint (s : scrambledfile) : Nat × scrambledfile :=
  let ra := s.read
  let a : Nat := ra.1.val
  let rb := ra.2.read
  let b : Nat := rb.1.val
  let rc := rb.2.read
  let c : Nat := rc.1.val
  let rd := rc.2.read
  let d : Nat := rd.1.val
  (((d <<< 24) % 4294967296) ||| ((c <<< 16) % 4294967296) ||| ((b <<< 8) % 4294967296) ||| a, rd.2)

/-- The method `void seek(const uint32_t pos)`. -/
def seek (s : scrambledfile) (pos : Nat) : scrambledfile :=
  { s with file := s.file.seekg pos }

/-- The method `void setkey(const uint32_t k)`. -/
def setkey (s : scrambledfile) (k : Nat) : scrambledfile :=
  if k ≠ 0 then
    { s with key := not32 (((k <<< 2) % 4294967296) ||| (k >>> 6)), scrambled := true }
  else
    { s with key := 0, scrambled := false }

/-- The loop `while (1) { char i = read(); if ((i == 0)||(i == EOF)) break; data.append(1,i); }`
of `readstring`, with `data` the string built so far, held as the list of its
bytes. `fuel` bounds the number of iterations, that is of calls of `read()`;
the answer is `none` when the loop has not left after that many. -/
def readstringLoop : Nat → scrambledfile → List Byte → Option (List Byte × scrambledfile)
  | 0, _, _ => none
  | fuel + 1, s, data =>
    let r := s.read
    let i : Int := schar (r.1.val : Int)
    if i = 0 ∨ i = EOF then some (data, r.2)
    else readstringLoop fuel r.2 (data ++ [u8 i])

/-- The method `std::string readstring()`: the loop entered with the empty
string. The result is the string returned and the object afterwards. -/
def readstring (fuel : Nat) (s : scrambledfile) : Option (List Byte × scrambledfile) :=
  readstringLoop fuel s []

end scrambledfile

/-- The constant `HAPI_MAGIC` of `hpifile.h`. -/
def HAPI_MAGIC : Nat := 0x49504148

/-- The constant `BANK_MAGIC` of `hpifile.h`. -/
def BANK_MAGIC : Nat := 0x4b4e4142

/-- The constant `HAPI_VERSION_MAGIC` of `hpifile.h`. -/
def HAPI_VERSION_MAGIC : Nat := 0x00010000

/-- The constant `HAPI2_VERSION_MAGIC` of `hpifile.h`. -/
def HAPI2_VERSION_MAGIC : Nat := 0x00020000


/-! ## Arithmetic of the conversions and of the transform -/

theorem int_not_eq (c : Int) : ~~~c = -c - 1 := by
  cases c with
  | ofNat n => show Int.negSucc n = -(n : Int) - 1; rw [Int.negSucc_eq]; omega
  | negSucc n => show (n : Int) = -(Int.negSucc n) - 1; rw [Int.negSucc_eq]; omega

theorem u32_not_mod (c : Int) : u32 (~~~c) % 256 = 255 - (c % 256).toNat := by
  rw [int_not_eq]; unfold u32; omega

theorem xor_mod_256 (a b : Nat) : (a ^^^ b) % 256 = (a % 256) ^^^ (b % 256) := by
  apply Nat.eq_of_testBit_eq
  intro i
  have h := Nat.testBit_mod_two_pow (a ^^^ b) 8 i
  have ha := Nat.testBit_mod_two_pow a 8 i
  have hb := Nat.testBit_mod_two_pow b 8 i
  norm_num at h ha hb
  rw [h, Nat.testBit_xor, ha, hb]
  by_cases hi : i < 8 <;> simp [hi]

theorem sub_eq_xor_255 (x : Nat) (h : x < 256) : 255 - x = 255 ^^^ x := by
  interval_cases x <;> rfl

theorem and_255 (x : Nat) : x &&& 255 = x % 256 := Nat.and_pow_two_sub_one_eq_mod x 8

/-- Only the low eight bits of key, position and operand reach the result. -/
theorem unscramble_eq (key pos : Nat) (c : Int) :
    unscramble key pos c = ((key ^^^ pos) % 256) ^^^ (255 ^^^ (c % 256).toNat) := by
  have hc : (c % 256).toNat < 256 := by omega
  show ((key ^^^ pos) ^^^ u32 (~~~c)) &&& 255 = _
  rw [and_255, xor_mod_256 (key ^^^ pos), u32_not_mod, sub_eq_xor_255 _ hc]

theorem unscramble_lt (key pos : Nat) (c : Int) : unscramble key pos c < 256 := by
  show ((key ^^^ pos) ^^^ u32 (~~~c)) &&& 255 < 256
  rw [and_255]; omega

theorem xor_cancel (c t x : Nat) : c ^^^ (t ^^^ (c ^^^ (t ^^^ x))) = x := by
  apply Nat.eq_of_testBit_eq
  intro i
  simp only [Nat.testBit_xor]
  cases c.testBit i <;> cases t.testBit i <;> cases x.testBit i <;> rfl

theorem u8_val (x : Int) : ((u8 x).val : Nat) = (x % 256).toNat := rfl

theorem u8_byte (b : Byte) : u8 (b.val : Int) = b := by
  apply Fin.ext; rw [u8_val]; have := b.isLt; omega

theorem u8_schar (x : Int) : u8 (schar x) = u8 x := by
  apply Fin.ext; rw [u8_val, u8_val]; unfold schar; omega

theorem schar_low (x : Int) : (schar x % 256).toNat = (x % 256).toNat := by
  unfold schar; omega

theorem unscramble_schar (key pos : Nat) (x : Int) :
    unscramble key pos (schar x) = unscramble key pos x := by
  rw [unscramble_eq, unscramble_eq, schar_low]

theorem unscramble_pos_mod (key pos : Nat) (c : Int) :
    unscramble key (pos % 4294967296) c = unscramble key pos c := by
  rw [unscramble_eq, unscramble_eq, xor_mod_256 key, xor_mod_256 key pos]
  congr 2
  omega

theorem schar_byte_eq_EOF (b : Byte) : schar (b.val : Int) = EOF ↔ b.val = 255 := by
  have := b.isLt
  unfold schar EOF; omega

/-- The transform of the buffer loops undoes itself. -/
theorem unscramble_unscramble (key pos : Nat) (b : Byte) :
    u8 (unscramble key pos ((u8 (unscramble key pos (b.val : Int))).val : Int)) = b := by
  have hb := b.isLt
  have h1 := unscramble_lt key pos (b.val : Int)
  apply Fin.ext
  rw [u8_val, u8_val]
  have e1 : (((((unscramble key pos (b.val : Int) : Nat) : Int) % 256).toNat : Nat) : Int) % 256
      = ((unscramble key pos (b.val : Int) : Nat) : Int) % 256 := by omega
  have h2 := unscramble_lt key pos ((((unscramble key pos (b.val : Int) : Nat) : Int) % 256).toNat : Int)
  have e2 : ((unscramble key pos ((((unscramble key pos (b.val : Int) : Nat) : Int) % 256).toNat : Int) : Nat) : Int) % 256
      = (unscramble key pos ((((unscramble key pos (b.val : Int) : Nat) : Int) % 256).toNat : Int) : Nat) := by omega
  rw [e2, Int.toNat_ofNat, unscramble_eq key pos ((((unscramble key pos (b.val : Int) : Nat) : Int) % 256).toNat : Int), e1]
  have e3 : (((unscramble key pos (b.val : Int) : Nat) : Int) % 256).toNat = unscramble key pos (b.val : Int) := by omega
  rw [e3, unscramble_eq key pos (b.val : Int)]
  have e4 : ((b.val : Int) % 256).toNat = b.val := by omega
  rw [e4, xor_cancel]

/-! ## The single-byte read -/

/-- What `read()` does on a stream that has not failed and has a byte at its
position: the byte is decoded unless it is `0xFF`, which the narrowing to
`char` makes equal to `EOF`. -/
theorem scrambledfile.read_of_byte (s : scrambledfile) (b : Byte) (hf : s.file.failbit = false)
    (hb : s.file.data[s.file.pos]? = some b) :
    s.read = (if s.scrambled = true ∧ b.val ≠ 255 then u8 (unscramble s.key s.file.pos (b.val : Int)) else b,
      { s with file := { s.file with pos := s.file.pos + 1 } }) := by
  have hE := schar_byte_eq_EOF b
  have hcond : ((s.scrambled && schar (b.val : Int) != EOF) = true)
      = (s.scrambled = true ∧ b.val ≠ 255) := by
    simp only [Bool.and_eq_true, bne_iff_ne, ne_eq, hE]
  have hu : u32 (s.file.pos : Int) = s.file.pos % 4294967296 := by unfold u32; omega
  unfold read
  simp only [ifstream.get, ifstream.tellg, hf, hb, Bool.false_eq_true, if_false, hcond]
  by_cases hc : s.scrambled = true ∧ b.val ≠ 255
  · simp only [if_pos hc, u8_schar, unscramble_schar, hu, unscramble_pos_mod]
  · simp only [if_neg hc, u8_schar, u8_byte]

/-- What `read()` does when no byte is available: the stream fails and the
value is `EOF` narrowed, `0xFF`, never decoded. -/
theorem scrambledfile.read_of_eof (s : scrambledfile)
    (h : s.file.failbit = true ∨ s.file.data.length ≤ s.file.pos) :
    s.read = ((255 : Byte), { s with file := { s.file with failbit := true } }) := by
  unfold read
  by_cases hf : s.file.failbit = true
  · have hfile : { s.file with failbit := true } = s.file := by
      cases hfl : s.file; simp_all
    simp [ifstream.get, ifstream.tellg, hf, hfile, schar, EOF]
    rfl
  · have hf2 : s.file.failbit = false := by simpa using hf
    have hlen : s.file.data.length ≤ s.file.pos := by
      rcases h with h | h
      · exact absurd h hf
      · exact h
    have hnone : s.file.data[s.file.pos]? = none := List.getElem?_eq_none hlen
    simp [ifstream.get, ifstream.tellg, hf2, hnone, schar, EOF]
    rfl

/-! ## The stream operations and the decoding loop -/

theorem ifstream.read_of_enough (f : ifstream) (n : Nat) (hf : f.failbit = false)
    (hl : ((f.data.drop f.pos).take n).length = n) :
    f.read n = ((f.data.drop f.pos).take n, { f with pos := f.pos + n, failbit := false }) := by
  unfold ifstream.read
  simp only [hf, Bool.false_eq_true, if_false, hl, Nat.lt_irrefl, decide_False]

theorem ifstream.read_of_short (f : ifstream) (n : Nat) (hf : f.failbit = false)
    (hp : f.pos ≤ f.data.length) (h : f.data.length < f.pos + n) :
    f.read n = ((f.data.drop f.pos).take n,
      { f with pos := f.pos + (f.data.length - f.pos), failbit := true }) := by
  have hl : ((f.data.drop f.pos).take n).length = f.data.length - f.pos := by
    rw [List.length_take, List.length_drop]; omega
  have hlt : f.data.length - f.pos < n := by omega
  unfold ifstream.read
  simp only [hf, Bool.false_eq_true, if_false, hl, hlt, decide_True]

theorem length_unscrambleLoop (key base n : Nat) (bs : List Byte) (i : Nat) :
    (unscrambleLoop key base n i bs).length = bs.length := by
  induction bs generalizing i with
  | nil => rfl
  | cons b bs ih =>
    unfold unscrambleLoop
    split
    · simp only [List.length_cons, ih]
    · rfl

/-- The loop replaces `buf[j]`, for the indices `j` below the bound, by its
transform at position `base + j`, and leaves the other bytes alone. -/
theorem getElem?_unscrambleLoop (key base n : Nat) (bs : List Byte) (i j : Nat) :
    (unscrambleLoop key base n i bs)[j]? =
      (bs[j]?).map (fun b => if i + j < n then u8 (unscramble key (base + (i + j)) (b.val : Int)) else b) := by
  induction bs generalizing i j with
  | nil => simp [unscrambleLoop]
  | cons b bs ih =>
    unfold unscrambleLoop
    by_cases hi : i < n
    · rw [if_pos hi]
      cases j with
      | zero => simp [hi, unscramble_pos_mod]
      | succ j =>
        simp only [List.getElem?_cons_succ, ih]
        congr 1
        funext x
        rw [show i + 1 + j = i + (j + 1) by omega]
    · rw [if_neg hi]
      have hij : ¬ (i + j < n) := by omega
      simp only [hij, if_false]
      simp

theorem store_of_le (buf chunk : List Byte) (h : chunk.length ≤ buf.length) :
    store buf chunk = some (chunk ++ buf.drop chunk.length) := by
  unfold store; rw [if_pos h]

/-- The positioned buffer read on a stream that has not failed, when the
whole range lies inside the file and fits the destination. -/
theorem scrambledfile.read_buffer_at_of_enough (s : scrambledfile) (buf : List Byte) (off len : Nat)
    (hf : s.file.failbit = false) (hl : ((s.file.data.drop off).take len).length = len)
    (hcap : len ≤ buf.length) (h31 : s.scrambled = true → len < 2147483648)
    (hoff : off < 4294967296) (hlen : len < 4294967296) :
    s.read_buffer_at buf off len = some (len,
      (if s.scrambled = true then
        unscrambleLoop s.key off len 0 ((s.file.data.drop off).take len ++ buf.drop len)
       else (s.file.data.drop off).take len ++ buf.drop len),
      { s with file := { s.file with pos := off + len } }) := by
  obtain ⟨⟨data, pos, fb⟩, key, scr⟩ := s
  simp only at hf hl h31
  subst hf
  have hrd := ifstream.read_of_enough ⟨data, off, false⟩ len rfl hl
  simp only at hrd
  have hst := store_of_le buf ((data.drop off).take len) (by rw [hl]; exact hcap)
  have hret : u32 ((u32 ((off + len : Nat) : Int) : Int) - (off : Int)) = len := by
    unfold u32; omega
  rw [hl] at hst
  unfold read_buffer_at ifstream.seekg
  simp only [Bool.false_eq_true, if_false, hrd, hst, ifstream.tellg, hret]
  by_cases hs : scr = true
  · have hb : len ≤ ((data.drop off).take len ++ buf.drop len).length := by
      rw [List.length_append, hl, List.length_drop]; omega
    simp only [unscrambleBuf, hs, if_true, hb, h31 hs, and_self]
  · have hs2 : scr = false := by simpa using hs
    simp only [unscrambleBuf, hs2, Bool.false_eq_true, if_false]

theorem u32_not_byte (b : Byte) : u32 (~~~(b.val : Int)) = 4294967295 - b.val := by
  have := b.isLt
  rw [int_not_eq]; unfold u32; omega

/-- The transform of a byte, with the complement written as a subtraction. -/
theorem unscramble_byte (key pos : Nat) (b : Byte) :
    unscramble key pos (b.val : Int) = ((key ^^^ pos) ^^^ (4294967295 - b.val)) &&& 255 := by
  show ((key ^^^ pos) ^^^ u32 (~~~(b.val : Int))) &&& 255 = _
  rw [u32_not_byte]

theorem not32_eq (x : Nat) (h : x < 4294967296) : not32 x = 4294967295 - x := by
  apply Nat.eq_of_testBit_eq
  intro i
  have h1 := Nat.testBit_two_pow_sub_one 32 i
  have h2 := Nat.testBit_two_pow_sub_succ (show x < 2 ^ 32 by simpa using h) i
  norm_num at h1 h2
  unfold not32
  rw [Nat.testBit_xor, h1, show 4294967295 - x = 4294967296 - (x + 1) by omega, h2]
  by_cases hi : i < 32
  · simp [hi]
  · have hx : x.testBit i = false := by
      apply Nat.testBit_lt_two_pow
      calc x < 2 ^ 32 := by simpa using h
        _ ≤ 2 ^ i := Nat.pow_le_pow_right (by decide) (by omega)
    simp [hi, hx]

theorem setkey_arg_lt (k : Nat) (hk : k < 4294967296) :
    (((k <<< 2) % 4294967296) ||| (k >>> 6)) < 4294967296 := by
  have h1 : (k <<< 2) % 4294967296 < 2 ^ 32 := by norm_num; omega
  have h2 : k >>> 6 < 2 ^ 32 := by
    rw [Nat.shiftRight_eq_div_pow]; norm_num; omega
  simpa using Nat.or_lt_two_pow h1 h2

theorem length_take_drop_of_le (data : List Byte) (off len : Nat) (h : off + len ≤ data.length) :
    ((data.drop off).take len).length = len := by
  rw [List.length_take, List.length_drop]; omega

theorem byte_shift_mod (x : Byte) (n : Nat) (hn : n ≤ 24) :
    (x.val <<< n) % 4294967296 = x.val <<< n := by
  apply Nat.mod_eq_of_lt
  rw [Nat.shiftLeft_eq]
  have hx := x.isLt
  calc x.val * 2 ^ n < 256 * 2 ^ n := Nat.mul_lt_mul_of_pos_right hx (Nat.pow_pos (by decide))
    _ ≤ 256 * 2 ^ 24 := Nat.mul_le_mul_left _ (Nat.pow_le_pow_right (by decide) hn)
    _ = 4294967296 := by norm_num

/-- The four bytes of a 32-bit value, low byte first, compose back to it. -/
theorem le_compose (v : Nat) (hv : v < 4294967296) :
    (v % 256) ||| ((v / 256 % 256) <<< 8) ||| ((v / 65536 % 256) <<< 16)
      ||| ((v / 16777216 % 256) <<< 24) = v := by
  have e1 : (v % 256) ||| ((v / 256 % 256) <<< 8) = 2 ^ 8 * (v / 256 % 256) + v % 256 := by
    rw [Nat.or_comm, Nat.shiftLeft_eq, Nat.mul_comm,
      Nat.mul_add_lt_is_or (show v % 256 < 2 ^ 8 by norm_num; omega)]
  have e2 : (2 ^ 8 * (v / 256 % 256) + v % 256) ||| ((v / 65536 % 256) <<< 16)
      = 2 ^ 16 * (v / 65536 % 256) + (2 ^ 8 * (v / 256 % 256) + v % 256) := by
    rw [Nat.or_comm, Nat.shiftLeft_eq, Nat.mul_comm,
      Nat.mul_add_lt_is_or (show 2 ^ 8 * (v / 256 % 256) + v % 256 < 2 ^ 16 by norm_num; omega)]
  have e3 : (2 ^ 16 * (v / 65536 % 256) + (2 ^ 8 * (v / 256 % 256) + v % 256))
        ||| ((v / 16777216 % 256) <<< 24)
      = 2 ^ 24 * (v / 16777216 % 256)
        + (2 ^ 16 * (v / 65536 % 256) + (2 ^ 8 * (v / 256 % 256) + v % 256)) := by
    rw [Nat.or_comm, Nat.shiftLeft_eq, Nat.mul_comm,
      Nat.mul_add_lt_is_or (show 2 ^ 16 * (v / 65536 % 256) + (2 ^ 8 * (v / 256 % 256) + v % 256)
        < 2 ^ 24 by norm_num; omega)]
  rw [e1, e2, e3]
  norm_num
  omega

/-- The effect of `read()` on the object, when a byte is available: only the
position moves, by one. -/
theorem scrambledfile.read_snd (data : List Byte) (pos key : Nat) (scr : Bool)
    (h : pos < data.length) :
    (scrambledfile.read ⟨⟨data, pos, false⟩, key, scr⟩).2 = ⟨⟨data, pos + 1, false⟩, key, scr⟩ := by
  rw [scrambledfile.read_of_byte ⟨⟨data, pos, false⟩, key, scr⟩ data[pos] rfl
    (List.getElem?_eq_getElem h)]

/-- The value of `read()` with obfuscation disabled, when a byte is available. -/
theorem scrambledfile.read_fst_plain (data : List Byte) (pos key : Nat) (h : pos < data.length) :
    (scrambledfile.read ⟨⟨data, pos, false⟩, key, false⟩).1 = data[pos] := by
  rw [scrambledfile.read_of_byte ⟨⟨data, pos, false⟩, key, false⟩ data[pos] rfl
    (List.getElem?_eq_getElem h)]
  simp

/-- The return expression of `readint` never overflows 32 bits, and lists the
bytes from the high one down. -/
theorem compose_bytes (a b c d : Byte) :
    ((d.val <<< 24) % 4294967296) ||| ((c.val <<< 16) % 4294967296)
        ||| ((b.val <<< 8) % 4294967296) ||| a.val
      = a.val ||| (b.val <<< 8) ||| (c.val <<< 16) ||| (d.val <<< 24) := by
  rw [byte_shift_mod d 24 (by decide), byte_shift_mod c 16 (by decide),
    byte_shift_mod b 8 (by decide)]
  generalize d.val <<< 24 = w
  generalize c.val <<< 16 = x
  generalize b.val <<< 8 = y
  generalize a.val = z
  rw [Nat.or_comm (w ||| x ||| y) z, Nat.or_comm (w ||| x) y, Nat.or_comm w x,
    ← Nat.or_assoc, ← Nat.or_assoc]

/-! ## The string read -/

theorem scrambledfile.readstringLoop_succ (fuel : Nat) (s : scrambledfile) (data : List Byte) :
    scrambledfile.readstringLoop (fuel + 1) s data =
      if schar (s.read.1.val : Int) = 0 ∨ schar (s.read.1.val : Int) = EOF then some (data, s.read.2)
      else scrambledfile.readstringLoop fuel s.read.2 (data ++ [u8 (schar (s.read.1.val : Int))]) := rfl

/-- A byte seen as a `char` is `0` or `EOF` exactly when it is `0x00` or `0xFF`. -/
theorem schar_stop_iff (b : Byte) :
    (schar (b.val : Int) = 0 ∨ schar (b.val : Int) = EOF) ↔ (b = 0 ∨ b = 255) := by
  have hb := b.isLt
  have h0 : b = 0 ↔ b.val = 0 := by
    constructor
    · intro h; rw [h]; rfl
    · intro h; exact Fin.ext h
  have h255 : b = 255 ↔ b.val = 255 := by
    constructor
    · intro h; rw [h]; rfl
    · intro h; exact Fin.ext h
  rw [h0, h255]
  unfold schar EOF
  omega

theorem schar_255 : schar (((255 : Byte).val : Nat) : Int) = EOF := by decide

/-- The loop of `readstring` leaves after at most one iteration more than
there are bytes left, and more fuel does not change what it returns; the
bytes it has appended are neither `0x00` nor `0xFF`, and are no more than the
bytes left. -/
theorem scrambledfile.readstringLoop_exits (n : Nat) :
    ∀ (s : scrambledfile) (data : List Byte),
      s.file.data.length - s.file.pos ≤ n →
      ∃ (str : List Byte) (s1 : scrambledfile),
        (∀ extra, scrambledfile.readstringLoop (n + 1 + extra) s data = some (data ++ str, s1)) ∧
        (∀ b ∈ str, b ≠ 0 ∧ b ≠ 255) ∧
        str.length ≤ s.file.data.length - s.file.pos := by
  induction n with
  | zero =>
    intro s data h
    have hlen : s.file.data.length ≤ s.file.pos := by omega
    refine ⟨[], s.read.2, ?_, ?_, ?_⟩
    · intro extra
      rw [show 0 + 1 + extra = extra + 1 by omega, scrambledfile.readstringLoop_succ,
        scrambledfile.read_of_eof s (Or.inr hlen)]
      simp only [schar_255, or_true, if_true, List.append_nil]
    · intro b hb; cases hb
    · simp
  | succ m ih =>
    intro s data h
    by_cases heof : s.file.failbit = true ∨ s.file.data.length ≤ s.file.pos
    · refine ⟨[], s.read.2, ?_, ?_, ?_⟩
      · intro extra
        rw [show m + 1 + 1 + extra = (m + 1 + extra) + 1 by omega,
          scrambledfile.readstringLoop_succ, scrambledfile.read_of_eof s heof]
        simp only [schar_255, or_true, if_true, List.append_nil]
      · intro b hb; cases hb
      · simp
    · have hf : s.file.failbit = false := by
        cases hfb : s.file.failbit
        · rfl
        · exact absurd (Or.inl hfb) heof
      have hpos : s.file.pos < s.file.data.length := by
        by_contra hcon
        exact heof (Or.inr (by omega))
      have hrd := scrambledfile.read_of_byte s s.file.data[s.file.pos] hf
        (List.getElem?_eq_getElem hpos)
      by_cases hstop : schar (s.read.1.val : Int) = 0 ∨ schar (s.read.1.val : Int) = EOF
      · refine ⟨[], s.read.2, ?_, ?_, ?_⟩
        · intro extra
          rw [show m + 1 + 1 + extra = (m + 1 + extra) + 1 by omega,
            scrambledfile.readstringLoop_succ, if_pos hstop]
          simp
        · intro b hb; cases hb
        · simp
      · have hrem : s.read.2.file.data.length - s.read.2.file.pos ≤ m := by
          rw [hrd]; simp only; omega
        obtain ⟨str, s1, hrun, hbytes, hlen⟩ :=
          ih s.read.2 (data ++ [u8 (schar (s.read.1.val : Int))]) hrem
        have hlen2 : str.length ≤ s.file.data.length - (s.file.pos + 1) := by
          rw [hrd] at hlen; simpa using hlen
        refine ⟨u8 (schar (s.read.1.val : Int)) :: str, s1, ?_, ?_, ?_⟩
        · intro extra
          rw [show m + 1 + 1 + extra = (m + 1 + extra) + 1 by omega,
            scrambledfile.readstringLoop_succ, if_neg hstop, hrun extra]
          simp
        · intro b hb
          rcases List.mem_cons.mp hb with hb | hb
          · rw [hb, u8_schar, u8_byte]
            have := (schar_stop_iff s.read.1).not.mp hstop
            exact ⟨fun h => this (Or.inl h), fun h => this (Or.inr h)⟩
          · exact hbytes b hb
        · simp only [List.length_cons]; omega

/-- The value of `readint()` with obfuscation disabled, on a stream that has
not failed, in terms of the four bytes at the position. -/
theorem scrambledfile.readint_plain (data : List Byte) (pos key : Nat) (b0 b1 b2 b3 : Byte)
    (h : (data.drop pos).take 4 = [b0, b1, b2, b3]) :
    (scrambledfile.readint ⟨⟨data, pos, false⟩, key, false⟩).1
      = b0.val ||| (b1.val <<< 8) ||| (b2.val <<< 16) ||| (b3.val <<< 24) := by
  have hlen : ((data.drop pos).take 4).length = 4 := by rw [h]; rfl
  rw [List.length_take, List.length_drop] at hlen
  have hb0 : pos < data.length := by omega
  have hb1 : pos + 1 < data.length := by omega
  have hb2 : pos + 1 + 1 < data.length := by omega
  have hb3 : pos + 1 + 1 + 1 < data.length := by omega
  have hg : ∀ j, j < 4 → data[pos + j]? = [b0, b1, b2, b3][j]? := by
    intro j hj
    rw [← h, List.getElem?_take_of_lt hj, List.getElem?_drop]
  have h0 : data[pos] = b0 := by
    have := hg 0 (by decide)
    rw [List.getElem?_eq_getElem (by assumption)] at this
    simpa using this
  have h1 : data[pos + 1] = b1 := by
    have := hg 1 (by decide)
    rw [List.getElem?_eq_getElem (by assumption)] at this
    simpa using this
  have h2 : data[pos + 1 + 1] = b2 := by
    have := hg 2 (by decide)
    rw [List.getElem?_eq_getElem (by assumption)] at this
    simpa using this
  have h3 : data[pos + 1 + 1 + 1] = b3 := by
    have := hg 3 (by decide)
    rw [List.getElem?_eq_getElem (by assumption)] at this
    simpa using this
  unfold scrambledfile.readint
  simp only [scrambledfile.read_snd data pos key false hb0,
    scrambledfile.read_snd data (pos + 1) key false hb1,
    scrambledfile.read_snd data (pos + 1 + 1) key false hb2,
    scrambledfile.read_fst_plain data pos key hb0,
    scrambledfile.read_fst_plain data (pos + 1) key hb1,
    scrambledfile.read_fst_plain data (pos + 1 + 1) key hb2,
    scrambledfile.read_fst_plain data (pos + 1 + 1 + 1) key hb3, h0, h1, h2, h3]
  exact compose_bytes _ _ _ _

theorem or_mod_256 (a b : Nat) : (a ||| b) % 256 = (a % 256) ||| (b % 256) := by
  apply Nat.eq_of_testBit_eq
  intro i
  have h := Nat.testBit_mod_two_pow (a ||| b) 8 i
  have ha := Nat.testBit_mod_two_pow a 8 i
  have hb := Nat.testBit_mod_two_pow b 8 i
  norm_num at h ha hb
  rw [h, Nat.testBit_or, ha, hb]
  by_cases hi : i < 8 <;> simp [hi]

/-- The low byte of the mask that `setkey` derives, from the low 14 bits of
the raw key. -/
theorem setkey_key_low_byte (s : scrambledfile) (k : Nat) (hk : k ≠ 0) :
    (s.setkey k).key % 256 = 255 ^^^ (((k % 64) * 4) ||| ((k % 16384) / 64)) := by
  have hkey : (s.setkey k).key = not32 (((k <<< 2) % 4294967296) ||| (k >>> 6)) := by
    unfold scrambledfile.setkey; rw [if_pos hk]
  have h1 : (k <<< 2) % 4294967296 % 256 = (k % 64) * 4 := by
    rw [Nat.shiftLeft_eq]; norm_num; omega
  have h2 : (k >>> 6) % 256 = (k % 16384) / 64 := by
    rw [Nat.shiftRight_eq_div_pow]; norm_num; omega
  rw [hkey]
  unfold not32
  rw [xor_mod_256, or_mod_256, h1, h2]

/-- The bytes that `read(buf, off, len)` takes from the stream are at most
`len` and at most those the source has from `off` on. -/
theorem ifstream.length_seekg_read_le (f : ifstream) (off len : Nat) :
    ((f.seekg off).read len).1.length ≤ len ∧
    ((f.seekg off).read len).1.length ≤ f.data.length - off := by
  obtain ⟨data, pos, fb⟩ := f
  cases fb
  · simp only [ifstream.seekg, ifstream.read, Bool.false_eq_true, if_false, List.length_take,
      List.length_drop]
    omega
  · simp [ifstream.seekg, ifstream.read]

/-- The positioned buffer read with obfuscation enabled, on any stream: the
bytes taken from the stream are stored, then the loop runs over the first
`len` bytes of the destination. -/
theorem scrambledfile.read_buffer_at_scrambled (s : scrambledfile) (buf : List Byte)
    (off len : Nat) (hs : s.scrambled = true) (hcap : len ≤ buf.length)
    (h31 : len < 2147483648) :
    s.read_buffer_at buf off len = some
      (u32 ((u32 ((s.file.seekg off).read len).2.tellg : Int) - (off : Int)),
       unscrambleLoop s.key off len 0
         (((s.file.seekg off).read len).1 ++ buf.drop ((s.file.seekg off).read len).1.length),
       { s with file := ((s.file.seekg off).read len).2 }) := by
  have hle := (ifstream.length_seekg_read_le s.file off len).1
  have hst := store_of_le buf ((s.file.seekg off).read len).1 (by omega)
  have hb : len ≤ (((s.file.seekg off).read len).1
      ++ buf.drop ((s.file.seekg off).read len).1.length).length := by
    rw [List.length_append, List.length_drop]; omega
  unfold scrambledfile.read_buffer_at
  simp only [hst, unscrambleBuf, hs, if_true, hb, h31, and_self]

/-- The positioned buffer read with obfuscation disabled, on any stream: the
bytes taken from the stream are stored and nothing else is done. -/
theorem scrambledfile.read_buffer_at_plain (s : scrambledfile) (buf : List Byte)
    (off len : Nat) (hs : s.scrambled = false) (hcap : len ≤ buf.length) :
    s.read_buffer_at buf off len = some
      (u32 ((u32 ((s.file.seekg off).read len).2.tellg : Int) - (off : Int)),
       ((s.file.seekg off).read len).1 ++ buf.drop ((s.file.seekg off).read len).1.length,
       { s with file := ((s.file.seekg off).read len).2 }) := by
  have hle := (ifstream.length_seekg_read_le s.file off len).1
  have hst := store_of_le buf ((s.file.seekg off).read len).1 (by omega)
  unfold scrambledfile.read_buffer_at
  simp only [hst, unscrambleBuf, hs, Bool.false_eq_true, if_false]

/-! ## The claims -/

/-- C1. Cipher involution: for every nonzero 32-bit raw key `k`, every 32-bit
position `p` and every byte `b`, with `m` the mask that `setkey(k)` derives,
the expression of the reads is `T(m,p,x) = ((m XOR p) XOR NOT x) AND 0xFF`
(the byte read of `read()` goes through `char` and gives the same value), and
`T(m,p,T(m,p,b)) = b`. -/
theorem cipher_involution (s : scrambledfile) (k p : Nat) (b : Byte)
    (_hk : k ≠ 0) (_hk32 : k < 4294967296) (_hp : p < 4294967296) :
    unscramble (s.setkey k).key p (b.val : Int)
        = (((s.setkey k).key ^^^ p) ^^^ (4294967295 - b.val)) &&& 255 ∧
    u8 (schar (unscramble (s.setkey k).key p (schar (b.val : Int)) : Nat))
        = u8 (unscramble (s.setkey k).key p (b.val : Int) : Nat) ∧
    u8 (unscramble (s.setkey k).key p
          ((u8 (unscramble (s.setkey k).key p (b.val : Int) : Nat)).val : Int) : Nat) = b := by
  refine ⟨?_, ?_, unscramble_unscramble _ p b⟩
  · exact unscramble_byte _ p b
  · rw [u8_schar, unscramble_schar]

/-- Witness for C1: the key `0x12345678`, position 5 and byte
`0xAA`. -/
theorem cipher_involution_witness :
    (0x12345678 ≠ 0 ∧ 0x12345678 < 4294967296 ∧ 5 < 4294967296) ∧
    u8 (unscramble ((scrambledfile.ctor [] false 0).setkey 0x12345678).key 5
          ((u8 (unscramble ((scrambledfile.ctor [] false 0).setkey 0x12345678).key 5
            (((0xAA : Byte).val : Nat) : Int) : Nat)).val : Int) : Nat) = (0xAA : Byte) :=
  ⟨by decide,
   (cipher_involution (scrambledfile.ctor [] false 0) 0x12345678 5 0xAA
      (by decide) (by decide) (by decide)).2.2⟩

/-- C2. Pass-through: after `setkey(0)`, whatever key was set before, on a
stream positioned inside the source `read()` returns the source byte at the
position, and `read(buf)` and `read(buf, off, len)` leave in the destination
exactly the source bytes of the range they read (the bytes from the position,
respectively from `off`, as many as asked for and as the source still has),
followed by the untouched rest of the destination. -/
theorem passthrough_after_setkey_zero (s : scrambledfile) (ptrSize off len : Nat)
    (buf : List Byte) (hf : s.file.failbit = false) (hpos : s.file.pos < s.file.data.length)
    (hc1 : ptrSize ≤ buf.length) (hc2 : len ≤ buf.length) :
    ((s.setkey 0).read).1 = s.file.data[s.file.pos] ∧
    ((s.setkey 0).read_buffer ptrSize buf).map (fun r => r.2.1)
      = some ((s.file.data.drop s.file.pos).take ptrSize
          ++ buf.drop ((s.file.data.drop s.file.pos).take ptrSize).length) ∧
    ((s.setkey 0).read_buffer_at buf off len).map (fun r => r.2.1)
      = some ((s.file.data.drop off).take len
          ++ buf.drop ((s.file.data.drop off).take len).length) := by
  obtain ⟨⟨data, pos, fb⟩, key, scr⟩ := s
  simp only at hf hpos
  subst hf
  refine ⟨?_, ?_, ?_⟩
  · have hb : data[pos]? = some data[pos] := List.getElem?_eq_getElem hpos
    have h := scrambledfile.read_of_byte (scrambledfile.setkey ⟨⟨data, pos, false⟩, key, scr⟩ 0)
      data[pos] rfl hb
    rw [h]
    simp [scrambledfile.setkey]
  · have hle : ((data.drop pos).take ptrSize).length ≤ buf.length := by
      rw [List.length_take]; omega
    simp only [scrambledfile.read_buffer, scrambledfile.setkey, ifstream.read, ne_eq,
      not_true_eq_false, if_false, Bool.false_eq_true, store_of_le _ _ hle, unscrambleBuf,
      Option.map_some']
  · have hle : ((data.drop off).take len).length ≤ buf.length := by
      rw [List.length_take]; omega
    simp only [scrambledfile.read_buffer_at, scrambledfile.setkey, ifstream.read, ifstream.seekg,
      ne_eq, not_true_eq_false, if_false, Bool.false_eq_true, store_of_le _ _ hle, unscrambleBuf,
      Option.map_some']

/-- Witness for C2: a stream keyed with
`0x12345678` and positioned at 1 on the source `FF 10 20`, read after
`setkey(0)`. -/
theorem passthrough_after_setkey_zero_witness :
    ((((scrambledfile.ctor [0xFF, 0x10, 0x20] false 0).setkey 0x12345678).seek 1).setkey 0).read.1
      = (0x10 : Byte) ∧
    (((((scrambledfile.ctor [0xFF, 0x10, 0x20] false 0).setkey 0x12345678).seek 1).setkey 0).read_buffer_at
        [0, 0, 0, 0] 0 3).map (fun r => r.2.1) = some [0xFF, 0x10, 0x20, 0] :=
  ⟨(passthrough_after_setkey_zero
      (((scrambledfile.ctor [0xFF, 0x10, 0x20] false 0).setkey 0x12345678).seek 1) 4 0 3
      [0, 0, 0, 0] rfl (by decide) (by decide) (by decide)).1,
   (passthrough_after_setkey_zero
      (((scrambledfile.ctor [0xFF, 0x10, 0x20] false 0).setkey 0x12345678).seek 1) 4 0 3
      [0, 0, 0, 0] rfl (by decide) (by decide) (by decide)).2.2⟩

/-- C3, at the input where the code departs from it: on the one-byte source
`FF`, after `setkey(1)` (mask `0xFFFFFFFB`), `read()` at position 0 returns
`0xFF` and moves to position 1, while the transform
`((m XOR p) XOR NOT raw) AND 0xFF` of that byte is `0xFB`, which is what the
buffer read `read(buf, 0, 1)` stores. -/
theorem read_leaves_ff_byte_undecoded :
    ((scrambledfile.ctor [0xFF] false 0).setkey 1).key = 0xFFFFFFFB ∧
    ((scrambledfile.ctor [0xFF] false 0).setkey 1).read.1 = (0xFF : Byte) ∧
    ((scrambledfile.ctor [0xFF] false 0).setkey 1).read.2.file.pos = 1 ∧
    u8 ((((0xFFFFFFFB ^^^ 0) ^^^ not32 0xFF) &&& 0xFF : Nat) : Int) = (0xFB : Byte) ∧
    (((scrambledfile.ctor [0xFF] false 0).setkey 1).read_buffer_at [0] 0 1).map (fun r => r.2.1)
      = some [0xFB] := by
  decide

/-- C4. Key derivation: for every nonzero 32-bit raw key `k`, `setkey(k)`
enables obfuscation and sets the mask to the 32-bit complement of
`(k << 2) | (k >> 6)`, the left shift truncated to 32 bits (`4k mod 2^32`) and
the right shift logical (`k / 64`); `setkey(0)` disables obfuscation. -/
theorem setkey_key_derivation (s : scrambledfile) (k : Nat)
    (hk : k ≠ 0) (hk32 : k < 4294967296) :
    (s.setkey k).scrambled = true ∧
    (s.setkey k).key = 4294967295 - (((k * 4) % 4294967296) ||| (k / 64)) ∧
    (s.setkey k).key < 4294967296 ∧
    (∀ i, i < 32 → (s.setkey k).key.testBit i
        = !((((k <<< 2) % 4294967296) ||| (k >>> 6)).testBit i)) ∧
    (s.setkey 0).scrambled = false := by
  have hlt := setkey_arg_lt k hk32
  have hkey : (s.setkey k).key = not32 (((k <<< 2) % 4294967296) ||| (k >>> 6)) := by
    unfold scrambledfile.setkey; rw [if_pos hk]
  have harg : (((k <<< 2) % 4294967296) ||| (k >>> 6)) = (((k * 4) % 4294967296) ||| (k / 64)) := by
    rw [Nat.shiftLeft_eq, Nat.shiftRight_eq_div_pow]
  refine ⟨?_, ?_, ?_, ?_, ?_⟩
  · unfold scrambledfile.setkey; rw [if_pos hk]
  · rw [hkey, not32_eq _ hlt, harg]
  · rw [hkey, not32_eq _ hlt]; omega
  · intro i hi
    rw [hkey]
    unfold not32
    have h1 := Nat.testBit_two_pow_sub_one 32 i
    norm_num at h1
    rw [Nat.testBit_xor, h1]
    simp [hi]
  · rfl

/-- Witness for C4: the key `0x12345678` gives the mask
`0xB7262606`. -/
theorem setkey_key_derivation_witness :
    (0x12345678 ≠ 0 ∧ 0x12345678 < 4294967296) ∧
    ((scrambledfile.ctor [] false 0).setkey 0x12345678).scrambled = true ∧
    ((scrambledfile.ctor [] false 0).setkey 0x12345678).key = 0xB7262606 :=
  ⟨by decide,
   (setkey_key_derivation (scrambledfile.ctor [] false 0) 0x12345678 (by decide) (by decide)).1,
   (setkey_key_derivation (scrambledfile.ctor [] false 0) 0x12345678 (by decide) (by decide)).2.1⟩

/-- C5 fails on a stream that has failed. On the source `01 02 03`, a `read()`
at the end of the data sets the fail state; the following
`read(buf, 0, 2)`, whose range lies inside the source, then returns
`4294967295` instead of 2 and leaves the destination as it was, so that
`buf[0]` is not `source[0]`. -/
theorem read_buffer_at_after_failure :
    0 + 2 ≤ (((scrambledfile.ctor [1, 2, 3] false 0).seek 3).read.2).file.data.length ∧
    (((scrambledfile.ctor [1, 2, 3] false 0).seek 3).read.2).file.failbit = true ∧
    (((scrambledfile.ctor [1, 2, 3] false 0).seek 3).read.2).scrambled = false ∧
    (((scrambledfile.ctor [1, 2, 3] false 0).seek 3).read.2).read_buffer_at [0, 0] 0 2
      = some (4294967295, [0, 0], ((scrambledfile.ctor [1, 2, 3] false 0).seek 3).read.2) ∧
    ((((scrambledfile.ctor [1, 2, 3] false 0).seek 3).read.2).read_buffer_at [0, 0] 0 2).map
      (fun r => r.1) ≠ some 2 ∧
    ((((scrambledfile.ctor [1, 2, 3] false 0).seek 3).read.2).read_buffer_at [0, 0] 0 2).map
      (fun r => r.2.1[0]?) ≠ some ((((scrambledfile.ctor [1, 2, 3] false 0).seek 3).read.2).file.data[0]?) := by
  decide

/-- C5, amended. On a stream that has not failed, for every `off` and `len`
(32-bit values) with `off + len` within the source, a destination of at least
`len` bytes and, when obfuscation is enabled, `len < 2^31` (the range of the
loop counter): `read(buf, off, len)` returns `len`, leaves the stream at
`off + len`, and leaves `buf[i] = source[off+i]` for every `i < len` when
obfuscation is disabled, `buf[i] = ((m XOR (off+i)) XOR NOT source[off+i]) AND 0xFF`
when it is enabled; the bytes of the destination from `len` on keep their
value, and the result is the same whatever position the stream had before. -/
theorem read_buffer_at_inside (s : scrambledfile) (buf : List Byte) (off len : Nat)
    (hf : s.file.failbit = false) (hsrc : off + len ≤ s.file.data.length)
    (hcap : len ≤ buf.length) (h31 : s.scrambled = true → len < 2147483648)
    (hoff : off < 4294967296) (hlen : len < 4294967296) :
    ∃ buf1 : List Byte,
      s.read_buffer_at buf off len
        = some (len, buf1, { s with file := { s.file with pos := off + len } }) ∧
      buf1.length = buf.length ∧
      (∀ i (hi : i < len), buf1[i]? = some
        (if s.scrambled = true then
          u8 (((s.key ^^^ (off + i)) ^^^ (4294967295 - (s.file.data[off + i]).val)) &&& 255 : Nat)
         else s.file.data[off + i])) ∧
      (∀ i, len ≤ i → buf1[i]? = buf[i]?) ∧
      (∀ p, ({ s with file := { s.file with pos := p } } : scrambledfile).read_buffer_at buf off len
        = some (len, buf1, { s with file := { s.file with pos := off + len } })) := by
  have hl := length_take_drop_of_le s.file.data off len hsrc
  have key := scrambledfile.read_buffer_at_of_enough s buf off len hf hl hcap h31 hoff hlen
  have hchunk : ∀ i (hi : i < len),
      ((s.file.data.drop off).take len ++ buf.drop len)[i]? = some (s.file.data[off + i]) := by
    intro i hi
    rw [List.getElem?_append_left (by rw [hl]; exact hi), List.getElem?_take_of_lt hi,
      List.getElem?_drop, List.getElem?_eq_getElem]
  have hrest : ∀ i, len ≤ i →
      ((s.file.data.drop off).take len ++ buf.drop len)[i]? = buf[i]? := by
    intro i hi
    rw [List.getElem?_append_right (by rw [hl]; exact hi), hl, List.getElem?_drop]
    congr 1; omega
  refine ⟨_, key, ?_, ?_, ?_, ?_⟩
  · split
    · rw [length_unscrambleLoop, List.length_append, hl, List.length_drop]; omega
    · rw [List.length_append, hl, List.length_drop]; omega
  · intro i hi
    by_cases hs : s.scrambled = true
    · simp only [hs, if_true]
      rw [getElem?_unscrambleLoop, hchunk i hi]
      simp only [Option.map_some', Nat.zero_add, hi, if_true, unscramble_byte]
    · simp only [hs, if_false]
      exact hchunk i hi
  · intro i hi
    by_cases hs : s.scrambled = true
    · simp only [hs, if_true]
      rw [getElem?_unscrambleLoop, hrest i hi]
      have hn : ¬ (0 + i < len) := by omega
      simp only [hn, if_false, Option.map_id']
    · simp only [hs, if_false]
      exact hrest i hi
  · intro p
    exact scrambledfile.read_buffer_at_of_enough
      ({ s with file := { s.file with pos := p } } : scrambledfile) buf off len hf hl hcap h31 hoff hlen

/-- Witness for C5 as amended: the source `FF 10 20` under the key 1,
two bytes read from offset 1 into a three-byte destination. -/
theorem read_buffer_at_inside_witness :
    ∃ buf1 : List Byte,
      ((scrambledfile.ctor [0xFF, 0x10, 0x20] false 0).setkey 1).read_buffer_at [7, 7, 7] 1 2
        = some (2, buf1,
            { file := { data := [0xFF, 0x10, 0x20], pos := 1 + 2, failbit := false },
              key := 0xFFFFFFFB, scrambled := true }) ∧
      buf1.length = 3 :=
  let ⟨buf1, h1, h2, _⟩ := read_buffer_at_inside
    ((scrambledfile.ctor [0xFF, 0x10, 0x20] false 0).setkey 1) [7, 7, 7] 1 2
    rfl (by decide) (by decide) (by decide) (by decide) (by decide)
  ⟨buf1, h1, h2⟩

/-- C6. De-obfuscation round trip: for every nonzero raw key `k`, every offset
`off` and every plaintext `P` (shorter than `2^31` bytes, the range of the
loop counter), if the source holds at the positions `off .. off+|P|-1` the
obfuscated form of `P`, each byte transformed with the mask of `k` and its
absolute position, then after `setkey(k)`, on a stream that has not failed and
with a destination of at least `|P|` bytes, `read(buf, off, |P|)` returns
`|P|` and the destination holds exactly `P` in its first `|P|` bytes. -/
theorem deobfuscation_round_trip (s : scrambledfile) (k off : Nat) (P buf : List Byte)
    (hk : k ≠ 0) (_hk32 : k < 4294967296) (hoff : off < 4294967296)
    (hf : s.file.failbit = false) (hcap : P.length ≤ buf.length) (h31 : P.length < 2147483648)
    (hobf : ∀ i (hi : i < P.length), s.file.data[off + i]?
        = some (u8 (unscramble (s.setkey k).key (off + i) ((P[i]).val : Int) : Nat))) :
    (s.setkey k).read_buffer_at buf off P.length
      = some (P.length, P ++ buf.drop P.length,
          { s.setkey k with file := { s.file with pos := off + P.length } }) := by
  have hfile : (s.setkey k).file = s.file := by
    unfold scrambledfile.setkey; rw [if_pos hk]
  have hscr : (s.setkey k).scrambled = true := by
    unfold scrambledfile.setkey; rw [if_pos hk]
  have hl : ((s.file.data.drop off).take P.length).length = P.length := by
    rw [List.length_take, List.length_drop]
    by_cases h0 : P.length = 0
    · omega
    · have hlast := hobf (P.length - 1) (by omega)
      have hsome : off + (P.length - 1) < s.file.data.length := by
        by_contra hcon
        rw [List.getElem?_eq_none (by omega)] at hlast
        exact Option.noConfusion hlast
      omega
  have key := scrambledfile.read_buffer_at_of_enough (s.setkey k) buf off P.length
    (by rw [hfile]; exact hf) (by rw [hfile]; exact hl) hcap (fun _ => h31) hoff (by omega)
  rw [key, hfile]
  simp only [hscr, if_true]
  congr 3
  apply List.ext_getElem?
  intro j
  rw [getElem?_unscrambleLoop]
  by_cases hj : j < P.length
  · rw [List.getElem?_append_left (by rw [hl]; exact hj), List.getElem?_take_of_lt hj,
      List.getElem?_drop, hobf j hj, List.getElem?_append_left hj, List.getElem?_eq_getElem hj]
    simp only [Option.map_some', Nat.zero_add, hj, if_true, unscramble_unscramble]
  · have hn : ¬ (0 + j < P.length) := by omega
    simp only [hn, if_false, Option.map_id']
    rw [List.getElem?_append_right (by rw [hl]; omega), hl,
      List.getElem?_append_right (by omega)]

/-- Witness for C6: an archive image with raw key
`0x12345678` whose bytes 20..22 are the obfuscated form `47 57 23` of the
plaintext `AA BB CC`. -/
theorem deobfuscation_round_trip_witness :
    (((scrambledfile.ctor
        [0x48, 0x41, 0x50, 0x49, 0x42, 0x41, 0x4E, 0x4B, 0x14, 0, 0, 0, 0x78, 0x56, 0x34, 0x12,
         0, 0, 1, 0, 0x47, 0x57, 0x23] false 0).setkey 0x12345678).read_buffer_at [0, 0, 0] 20 3).map
      (fun r => (r.1, r.2.1)) = some (3, [0xAA, 0xBB, 0xCC]) :=
  congrArg (Option.map (fun r => (r.1, r.2.1)))
    (deobfuscation_round_trip
      (scrambledfile.ctor
        [0x48, 0x41, 0x50, 0x49, 0x42, 0x41, 0x4E, 0x4B, 0x14, 0, 0, 0, 0x78, 0x56, 0x34, 0x12,
         0, 0, 1, 0, 0x47, 0x57, 0x23] false 0)
      0x12345678 20 [0xAA, 0xBB, 0xCC] [0, 0, 0]
      (by decide) (by decide) (by decide) rfl (by decide) (by decide) (by decide))

/-- C7. Little-endian integer read: on a stream that has not failed and has
at least four bytes left, `readint()` returns `b0 | (b1 << 8) | (b2 << 16) | (b3 << 24)`
for the results `b0..b3` of four consecutive `read()` calls from the current
position, and leaves the stream four bytes further; with obfuscation
disabled, when the four bytes at the position are those of the 32-bit value
`v`, low byte first, `readint()` returns `v`. -/
theorem readint_little_endian (s : scrambledfile) (v : Nat)
    (hf : s.file.failbit = false) (h4 : s.file.pos + 4 ≤ s.file.data.length)
    (hv : v < 4294967296) :
    s.readint.1 = s.read.1.val ||| (s.read.2.read.1.val <<< 8)
      ||| (s.read.2.read.2.read.1.val <<< 16) ||| (s.read.2.read.2.read.2.read.1.val <<< 24) ∧
    s.readint.2 = s.read.2.read.2.read.2.read.2 ∧
    s.readint.2.file.pos = s.file.pos + 4 ∧
    s.readint.2.file.failbit = false ∧
    (s.scrambled = false →
      (s.file.data.drop s.file.pos).take 4
        = [u8 (v : Int), u8 ((v / 256 : Nat) : Int), u8 ((v / 65536 : Nat) : Int),
           u8 ((v / 16777216 : Nat) : Int)] →
      s.readint.1 = v) := by
  obtain ⟨⟨data, pos, fb⟩, key, scr⟩ := s
  simp only at hf h4
  subst hf
  have hb0 : pos < data.length := by omega
  have hb1 : pos + 1 < data.length := by omega
  have hb2 : pos + 1 + 1 < data.length := by omega
  have hb3 : pos + 1 + 1 + 1 < data.length := by omega
  have hval : (scrambledfile.readint ⟨⟨data, pos, false⟩, key, scr⟩).1
      = (scrambledfile.read ⟨⟨data, pos, false⟩, key, scr⟩).1.val
        ||| ((scrambledfile.read ⟨⟨data, pos + 1, false⟩, key, scr⟩).1.val <<< 8)
        ||| ((scrambledfile.read ⟨⟨data, pos + 1 + 1, false⟩, key, scr⟩).1.val <<< 16)
        ||| ((scrambledfile.read ⟨⟨data, pos + 1 + 1 + 1, false⟩, key, scr⟩).1.val <<< 24) := by
    unfold scrambledfile.readint
    simp only [scrambledfile.read_snd data pos key scr hb0,
      scrambledfile.read_snd data (pos + 1) key scr hb1,
      scrambledfile.read_snd data (pos + 1 + 1) key scr hb2]
    exact compose_bytes _ _ _ _
  have hst : (scrambledfile.readint ⟨⟨data, pos, false⟩, key, scr⟩).2
      = ⟨⟨data, pos + 4, false⟩, key, scr⟩ := by
    unfold scrambledfile.readint
    simp only [scrambledfile.read_snd data pos key scr hb0,
      scrambledfile.read_snd data (pos + 1) key scr hb1,
      scrambledfile.read_snd data (pos + 1 + 1) key scr hb2,
      scrambledfile.read_snd data (pos + 1 + 1 + 1) key scr hb3]
  refine ⟨?_, ?_, ?_, ?_, ?_⟩
  · rw [hval]
    simp only [scrambledfile.read_snd data pos key scr hb0,
      scrambledfile.read_snd data (pos + 1) key scr hb1,
      scrambledfile.read_snd data (pos + 1 + 1) key scr hb2]
  · rw [hst]
    simp only [scrambledfile.read_snd data pos key scr hb0,
      scrambledfile.read_snd data (pos + 1) key scr hb1,
      scrambledfile.read_snd data (pos + 1 + 1) key scr hb2,
      scrambledfile.read_snd data (pos + 1 + 1 + 1) key scr hb3]
  · rw [hst]
  · rw [hst]
  · intro hs hle
    simp only at hs hle
    subst hs
    have hg : ∀ j, j < 4 → data[pos + j]? =
        [u8 (v : Int), u8 ((v / 256 : Nat) : Int), u8 ((v / 65536 : Nat) : Int),
           u8 ((v / 16777216 : Nat) : Int)][j]? := by
      intro j hj
      rw [← hle, List.getElem?_take_of_lt hj, List.getElem?_drop]
    have h0 : data[pos] = u8 (v : Int) := by
      have := hg 0 (by decide)
      rw [List.getElem?_eq_getElem (by assumption)] at this
      simpa using this
    have h1 : data[pos + 1] = u8 ((v / 256 : Nat) : Int) := by
      have := hg 1 (by decide)
      rw [List.getElem?_eq_getElem (by assumption)] at this
      simpa using this
    have h2 : data[pos + 1 + 1] = u8 ((v / 65536 : Nat) : Int) := by
      have := hg 2 (by decide)
      rw [List.getElem?_eq_getElem (by assumption)] at this
      simpa using this
    have h3 : data[pos + 1 + 1 + 1] = u8 ((v / 16777216 : Nat) : Int) := by
      have := hg 3 (by decide)
      rw [List.getElem?_eq_getElem (by assumption)] at this
      simpa using this
    rw [hval, scrambledfile.read_fst_plain data pos key hb0,
      scrambledfile.read_fst_plain data (pos + 1) key hb1,
      scrambledfile.read_fst_plain data (pos + 1 + 1) key hb2,
      scrambledfile.read_fst_plain data (pos + 1 + 1 + 1) key hb3, h0, h1, h2, h3]
    have e0 : ((u8 (v : Int)).val : Nat) = v % 256 := by rw [u8_val]; omega
    have e1 : ((u8 ((v / 256 : Nat) : Int)).val : Nat) = v / 256 % 256 := by rw [u8_val]; omega
    have e2 : ((u8 ((v / 65536 : Nat) : Int)).val : Nat) = v / 65536 % 256 := by
      rw [u8_val]; omega
    have e3 : ((u8 ((v / 16777216 : Nat) : Int)).val : Nat) = v / 16777216 % 256 := by
      rw [u8_val]; omega
    rw [e0, e1, e2, e3]
    exact le_compose v hv

/-- Witness for C7: the bytes `48 41 50 49` at position 0
read as `0x49504148`. -/
theorem readint_little_endian_witness :
    (scrambledfile.ctor [0x48, 0x41, 0x50, 0x49] false 0).readint.1 = 0x49504148 ∧
    (scrambledfile.ctor [0x48, 0x41, 0x50, 0x49] false 0).readint.2.file.pos = 0 + 4 :=
  ⟨(readint_little_endian (scrambledfile.ctor [0x48, 0x41, 0x50, 0x49] false 0) 0x49504148
      rfl (by decide) (by decide)).2.2.2.2 rfl (by decide),
   (readint_little_endian (scrambledfile.ctor [0x48, 0x41, 0x50, 0x49] false 0) 0x49504148
      rfl (by decide) (by decide)).2.2.1⟩

/-- C8. End-of-data sentinel: for every source, every key `k` (zero or not)
and every position at or past the end of the source, `read()` returns the
byte `0xFF`, which is `EOF` narrowed to 8 bits; the value does not depend on
the key or on the position, so with obfuscation enabled the sentinel has not
gone through the XOR transform. -/
theorem read_past_end_sentinel (s : scrambledfile) (k : Nat)
    (h : s.file.data.length ≤ s.file.pos) :
    ((s.setkey k).read).1 = u8 EOF ∧ ((s.setkey k).read).1 = (0xFF : Byte) ∧
    s.read.1 = (0xFF : Byte) := by
  have hfile : (s.setkey k).file = s.file := by
    unfold scrambledfile.setkey; split <;> rfl
  have h1 : ((s.setkey k).read).1 = (0xFF : Byte) := by
    rw [scrambledfile.read_of_eof (s.setkey k) (Or.inr (by rw [hfile]; exact h))]
  have h2 : s.read.1 = (0xFF : Byte) := by
    rw [scrambledfile.read_of_eof s (Or.inr h)]
  exact ⟨h1, h1, h2⟩

/-- Witness for C8: a two-byte source, the stream moved
to position 5, the key `0x12345678`. -/
theorem read_past_end_sentinel_witness :
    (((scrambledfile.ctor [1, 2] false 0).seek 5).setkey 0x12345678).scrambled = true ∧
    ((((scrambledfile.ctor [1, 2] false 0).seek 5).setkey 0x12345678).read).1 = (0xFF : Byte) :=
  ⟨rfl, (read_past_end_sentinel ((scrambledfile.ctor [1, 2] false 0).seek 5) 0x12345678
    (by decide)).2.1⟩

/-- C9, at inputs where the code departs from it: a read that runs into
the end of the source leaves the stream failed, `tellg()` answers `-1`, and
the value returned is `4294967295 - off`, not the number of bytes read. On the
source `01 02`, `read(buf, 0, 4)` stores the two bytes and returns
`4294967295`; on `01 02 03`, `read(buf, 1, 4)` stores two bytes and returns
`4294967294`. -/
theorem read_buffer_at_short_read_count :
    (scrambledfile.ctor [1, 2] false 0).read_buffer_at [0, 0, 0, 0] 0 4
      = some (4294967295, [1, 2, 0, 0],
          { file := { data := [1, 2], pos := 2, failbit := true }, key := 0, scrambled := false }) ∧
    (scrambledfile.ctor [1, 2, 3] false 0).read_buffer_at [0, 0, 0, 0] 1 4
      = some (4294967294, [2, 3, 0, 0],
          { file := { data := [1, 2, 3], pos := 3, failbit := true }, key := 0,
            scrambled := false }) := by
  decide

/-- C10, at inputs where the code departs from it: `read(buf)` asks the
stream for `sizeof(buf)` bytes, the size of a pointer, whatever the capacity
of the destination. With sixteen bytes left and a destination of sixteen bytes
it reads and returns 8 where pointers have eight bytes, 4 where they have
four; with a destination of two bytes it stores past its end. -/
theorem read_buffer_reads_pointer_size :
    (scrambledfile.ctor [0, 1, 2, 3, 4, 5, 6, 7, 8, 9, 10, 11, 12, 13, 14, 15] false 0).read_buffer 8
        [0, 0, 0, 0, 0, 0, 0, 0, 0, 0, 0, 0, 0, 0, 0, 0]
      = some (8, [0, 1, 2, 3, 4, 5, 6, 7, 0, 0, 0, 0, 0, 0, 0, 0],
          { file := { data := [0, 1, 2, 3, 4, 5, 6, 7, 8, 9, 10, 11, 12, 13, 14, 15], pos := 8,
                      failbit := false }, key := 0, scrambled := false }) ∧
    ((scrambledfile.ctor [0, 1, 2, 3, 4, 5, 6, 7, 8, 9, 10, 11, 12, 13, 14, 15] false 0).read_buffer 4
        [0, 0, 0, 0, 0, 0, 0, 0, 0, 0, 0, 0, 0, 0, 0, 0]).map (fun r => r.1) = some 4 ∧
    (scrambledfile.ctor [0, 1, 2, 3, 4, 5, 6, 7, 8, 9, 10, 11, 12, 13, 14, 15] false 0).read_buffer 8
        [0, 0] = none := by
  decide

/-- C11, at inputs where the code departs from it: `readstring()` compares
the `char` it has read with `EOF`, so a decoded byte `0xFF` ends the string
although it is neither a zero byte nor the end of the source. On the source
`41 FF 42 00` without obfuscation the claim gives `41 FF 42`, the code
returns `41` and stops at position 2. On the source `BA FA 44 07` under the
key 1, whose decoded bytes (those the buffer read stores) are `BE FF 42 00`,
the claim gives `BE FF 42`, the code returns `BE`. Without a byte `0xFF` the
string runs up to the zero byte (`41 42 00 43` gives `41 42`) or to the end
of the source (`41 42` gives `41 42`). -/
theorem readstring_stops_at_ff_byte :
    (scrambledfile.ctor [0x41, 0xFF, 0x42, 0x00] false 0).readstring 5
      = some ([0x41],
          { file := { data := [0x41, 0xFF, 0x42, 0x00], pos := 2, failbit := false },
            key := 0, scrambled := false }) ∧
    (((scrambledfile.ctor [0xBA, 0xFA, 0x44, 0x07] false 0).setkey 1).read_buffer_at
        [0, 0, 0, 0] 0 4).map (fun r => r.2.1) = some [0xBE, 0xFF, 0x42, 0x00] ∧
    (((scrambledfile.ctor [0xBA, 0xFA, 0x44, 0x07] false 0).setkey 1).readstring 5).map
        (fun r => r.1) = some [0xBE] ∧
    ((scrambledfile.ctor [0x41, 0x42, 0x00, 0x43] false 0).readstring 5).map (fun r => r.1)
      = some [0x41, 0x42] ∧
    ((scrambledfile.ctor [0x41, 0x42] false 0).readstring 3).map (fun r => r.1)
      = some [0x41, 0x42] := by
  decide

/-- C12, at an input where the code departs from it: on the source
`41 FF 42` under the key 1, `read(buf, 0, 3)` stores `45 FA 44`, the
transforms of the three bytes, while `seek(0)` followed by three `read()`
calls gives `45 FF 44`: `read()` returns the stored `0xFF` as it is. -/
theorem read_and_read_buffer_at_differ_on_ff :
    (((scrambledfile.ctor [0x41, 0xFF, 0x42] false 0).setkey 1).read_buffer_at
        [0, 0, 0] 0 3).map (fun r => r.2.1) = some [0x45, 0xFA, 0x44] ∧
    (((scrambledfile.ctor [0x41, 0xFF, 0x42] false 0).setkey 1).seek 0).read.1 = (0x45 : Byte) ∧
    (((scrambledfile.ctor [0x41, 0xFF, 0x42] false 0).setkey 1).seek 0).read.2.read.1
      = (0xFF : Byte) ∧
    (((scrambledfile.ctor [0x41, 0xFF, 0x42] false 0).setkey 1).seek 0).read.2.read.2.read.1
      = (0x44 : Byte) := by
  decide

/-- C13. `readstring()` terminates for every source, every key and every
starting position, inside or past the end of the source, and also on a
stream that has failed: with `remaining + 1` iterations allowed, one call of
`read()` each, the loop has left and the string is returned; allowing more
iterations returns the same. -/
theorem readstring_terminates (s : scrambledfile) (extra : Nat) :
    ∃ r : List Byte × scrambledfile,
      s.readstring (s.file.data.length - s.file.pos + 1) = some r ∧
      s.readstring (s.file.data.length - s.file.pos + 1 + extra) = some r := by
  obtain ⟨str, s1, hrun, _, _⟩ :=
    scrambledfile.readstringLoop_exits (s.file.data.length - s.file.pos) s [] (Nat.le_refl _)
  exact ⟨([] ++ str, s1), hrun 0, hrun extra⟩

/-- C14. Header signatures decode little-endian: on a stream that has not
failed, with obfuscation disabled, `readint()` over the four bytes
`'H','A','P','I'` returns `HAPI_MAGIC` and over `'B','A','N','K'` returns
`BANK_MAGIC`; the two signatures and the two version constants are pairwise
distinct. -/
theorem header_signatures_little_endian (s : scrambledfile)
    (hf : s.file.failbit = false) (hs : s.scrambled = false) :
    ((s.file.data.drop s.file.pos).take 4 = [0x48, 0x41, 0x50, 0x49] →
      s.readint.1 = HAPI_MAGIC) ∧
    ((s.file.data.drop s.file.pos).take 4 = [0x42, 0x41, 0x4E, 0x4B] →
      s.readint.1 = BANK_MAGIC) ∧
    HAPI_MAGIC = 0x49504148 ∧ BANK_MAGIC = 0x4b4e4142 ∧
    HAPI_MAGIC ≠ BANK_MAGIC ∧ HAPI_MAGIC ≠ HAPI_VERSION_MAGIC ∧
    HAPI_MAGIC ≠ HAPI2_VERSION_MAGIC ∧ BANK_MAGIC ≠ HAPI_VERSION_MAGIC ∧
    BANK_MAGIC ≠ HAPI2_VERSION_MAGIC ∧ HAPI_VERSION_MAGIC ≠ HAPI2_VERSION_MAGIC := by
  obtain ⟨⟨data, pos, fb⟩, key, scr⟩ := s
  simp only at hf hs
  subst hf
  subst hs
  refine ⟨?_, ?_, rfl, rfl, by decide, by decide, by decide, by decide, by decide, by decide⟩
  · intro h
    rw [scrambledfile.readint_plain data pos key _ _ _ _ h]
    decide
  · intro h
    rw [scrambledfile.readint_plain data pos key _ _ _ _ h]
    decide

/-- Witness for C14: the first eight bytes of an archive, `HAPI` then `BANK`. -/
theorem header_signatures_little_endian_witness :
    (scrambledfile.ctor [0x48, 0x41, 0x50, 0x49, 0x42, 0x41, 0x4E, 0x4B] false 0).readint.1
      = HAPI_MAGIC ∧
    (scrambledfile.ctor [0x48, 0x41, 0x50, 0x49, 0x42, 0x41, 0x4E, 0x4B] false 0).readint.2.readint.1
      = BANK_MAGIC :=
  ⟨(header_signatures_little_endian
      (scrambledfile.ctor [0x48, 0x41, 0x50, 0x49, 0x42, 0x41, 0x4E, 0x4B] false 0) rfl rfl).1
      (by decide),
   (header_signatures_little_endian
      (scrambledfile.ctor [0x48, 0x41, 0x50, 0x49, 0x42, 0x41, 0x4E, 0x4B] false 0).readint.2
      (by decide) (by decide)).2.1 (by decide)⟩

/-- C15 fails on a stream that has failed. On the source `01 02 03`, a
`read()` at the end of the data sets the fail state; `seek(0)` then does not
set the position (`tellg()` still answers `-1`), and the next `read()` returns
`0xFF`, not the byte `01` at position 0. -/
theorem seek_after_failure :
    (((scrambledfile.ctor [1, 2, 3] false 0).seek 3).read.2).file.failbit = true ∧
    ((((scrambledfile.ctor [1, 2, 3] false 0).seek 3).read.2).seek 0).file.pos = 3 ∧
    ((((scrambledfile.ctor [1, 2, 3] false 0).seek 3).read.2).seek 0).file.tellg = -1 ∧
    ((((scrambledfile.ctor [1, 2, 3] false 0).seek 3).read.2).seek 0).read.1 = (0xFF : Byte) ∧
    ((((scrambledfile.ctor [1, 2, 3] false 0).seek 3).read.2).seek 0).file.data[0]?
      = some (1 : Byte) := by
  decide

/-- C15, amended. On a stream that has not failed, for every position `pos`,
`seek(pos)` sets the position to `pos`, consumes no byte (the contents and the
state of the stream are as before) and leaves the mask and the obfuscation
flag unchanged, so that the next `read()` takes from the stream the byte at
`pos` and leaves the position at `pos + 1`; and on every stream, failed or
not, `setkey(k)` leaves the stream, its position included, unchanged for
every `k`. -/
theorem seek_setkey_frame (s : scrambledfile) (pos k : Nat) (hf : s.file.failbit = false) :
    (s.seek pos).file.pos = pos ∧
    (s.seek pos).file.tellg = (pos : Int) ∧
    (s.seek pos).file.data = s.file.data ∧
    (s.seek pos).file.failbit = false ∧
    (s.seek pos).key = s.key ∧
    (s.seek pos).scrambled = s.scrambled ∧
    (∀ h : pos < s.file.data.length,
      (s.seek pos).file.get = ((s.file.data[pos].val : Int),
        { data := s.file.data, pos := pos + 1, failbit := false }) ∧
      (s.seek pos).read.2.file.pos = pos + 1 ∧
      (s.scrambled = false → (s.seek pos).read.1 = s.file.data[pos])) ∧
    (s.setkey k).file = s.file ∧
    (∀ t : scrambledfile, (t.setkey k).file = t.file) := by
  have hset : ∀ t : scrambledfile, (t.setkey k).file = t.file := by
    intro t; unfold scrambledfile.setkey; split <;> rfl
  obtain ⟨⟨data, p0, fb⟩, key, scr⟩ := s
  simp only at hf
  subst hf
  refine ⟨rfl, rfl, rfl, rfl, rfl, rfl, ?_, hset _, hset⟩
  intro h
  simp only at h
  have hb : data[pos]? = some data[pos] := List.getElem?_eq_getElem h
  have hseek : scrambledfile.seek ⟨⟨data, p0, false⟩, key, scr⟩ pos = ⟨⟨data, pos, false⟩, key, scr⟩ := rfl
  refine ⟨?_, ?_, ?_⟩
  · rw [hseek]
    simp only [ifstream.get, Bool.false_eq_true, if_false, hb]
  · rw [hseek, scrambledfile.read_snd data pos key scr h]
  · intro hscr
    simp only at hscr
    subst hscr
    rw [hseek, scrambledfile.read_fst_plain data pos key h]

/-- Witness for C15 as amended: the source `0A 0B 0C` under the key 5, the
stream moved from position 0 to position 2. -/
theorem seek_setkey_frame_witness :
    (((scrambledfile.ctor [10, 11, 12] false 0).setkey 5).seek 2).file.pos = 2 ∧
    (((scrambledfile.ctor [10, 11, 12] false 0).setkey 5).seek 2).key
      = ((scrambledfile.ctor [10, 11, 12] false 0).setkey 5).key ∧
    (((scrambledfile.ctor [10, 11, 12] false 0).setkey 5).seek 2).read.2.file.pos = 2 + 1 ∧
    (((scrambledfile.ctor [10, 11, 12] false 0).setkey 5).setkey 9).file
      = ((scrambledfile.ctor [10, 11, 12] false 0).setkey 5).file :=
  ⟨(seek_setkey_frame ((scrambledfile.ctor [10, 11, 12] false 0).setkey 5) 2 9 rfl).1,
   (seek_setkey_frame ((scrambledfile.ctor [10, 11, 12] false 0).setkey 5) 2 9 rfl).2.2.2.2.1,
   ((seek_setkey_frame ((scrambledfile.ctor [10, 11, 12] false 0).setkey 5) 2 9
      rfl).2.2.2.2.2.2.1 (by decide)).2.1,
   (seek_setkey_frame ((scrambledfile.ctor [10, 11, 12] false 0).setkey 5) 2 9
      rfl).2.2.2.2.2.2.2.1⟩

/-- C16. `read()` cannot tell a stored `0xFF` from the end of the data: for
every key `k`, zero or not, every source and every position inside the source
whose byte is `0xFF`, `read()` returns `0xFF`, the value of `EOF` narrowed
that it returns at the end of the data, not the transform of the byte; the
byte is consumed, the position moves on by one. -/
theorem read_stored_ff_untransformed (s : scrambledfile) (k : Nat)
    (hf : s.file.failbit = false) (hb : s.file.data[s.file.pos]? = some (255 : Byte)) :
    ((s.setkey k).read).1 = (0xFF : Byte) ∧
    ((s.setkey k).read).1 = u8 EOF ∧
    ((s.setkey k).read).1
      = (({ s.setkey k with file := { s.file with pos := s.file.data.length } } :
          scrambledfile).read).1 ∧
    ((s.setkey k).read).2.file.pos = s.file.pos + 1 ∧
    ((s.setkey k).read).2.file.failbit = false := by
  have hfile : (s.setkey k).file = s.file := by
    unfold scrambledfile.setkey; split <;> rfl
  have hrd := scrambledfile.read_of_byte (s.setkey k) (255 : Byte) (by rw [hfile]; exact hf)
    (by rw [hfile]; exact hb)
  have hno : ¬ ((s.setkey k).scrambled = true ∧ ((255 : Byte).val : Nat) ≠ 255) :=
    fun h => h.2 rfl
  rw [if_neg hno] at hrd
  have heof := scrambledfile.read_of_eof
    ({ s.setkey k with file := { s.file with pos := s.file.data.length } } : scrambledfile)
    (Or.inr (Nat.le_refl _))
  rw [hrd, heof, hfile]
  exact ⟨rfl, rfl, rfl, rfl, hf⟩

/-- Witness for C16: the source `41 FF` under the key `0x12345678`, the
stream at position 1. -/
theorem read_stored_ff_untransformed_witness :
    ((((scrambledfile.ctor [0x41, 0xFF] false 0).seek 1).setkey 0x12345678).read).1
      = (0xFF : Byte) ∧
    ((((scrambledfile.ctor [0x41, 0xFF] false 0).seek 1).setkey 0x12345678).read).2.file.pos
      = 1 + 1 :=
  ⟨(read_stored_ff_untransformed ((scrambledfile.ctor [0x41, 0xFF] false 0).seek 1) 0x12345678
      rfl (by decide)).1,
   (read_stored_ff_untransformed ((scrambledfile.ctor [0x41, 0xFF] false 0).seek 1) 0x12345678
      rfl (by decide)).2.2.2.1⟩

/-- C17. The cipher uses only 8 bits of mask and of position: for all nonzero
raw keys `k1`, `k2` that agree on their low 14 bits, all positions `p1`, `p2`
that agree on their low 8 bits, and every byte `b`, the transformed byte
`((m XOR p) XOR NOT b) AND 0xFF` is the same, `m1` and `m2` being the masks
that `setkey` derives from `k1` and `k2`. -/
theorem cipher_uses_low_bits (s1 s2 : scrambledfile) (k1 k2 p1 p2 : Nat) (b : Byte)
    (hk1 : k1 ≠ 0) (hk2 : k2 ≠ 0) (hk : k1 % 16384 = k2 % 16384) (hp : p1 % 256 = p2 % 256) :
    unscramble (s1.setkey k1).key p1 (b.val : Int)
      = unscramble (s2.setkey k2).key p2 (b.val : Int) ∧
    (((s1.setkey k1).key ^^^ p1) ^^^ (4294967295 - b.val)) &&& 255
      = (((s2.setkey k2).key ^^^ p2) ^^^ (4294967295 - b.val)) &&& 255 := by
  have h64 : k1 % 64 = k2 % 64 := by omega
  have hm : (s1.setkey k1).key % 256 = (s2.setkey k2).key % 256 := by
    rw [setkey_key_low_byte s1 k1 hk1, setkey_key_low_byte s2 k2 hk2, hk, h64]
  have hu : unscramble (s1.setkey k1).key p1 (b.val : Int)
      = unscramble (s2.setkey k2).key p2 (b.val : Int) := by
    rw [unscramble_eq, unscramble_eq, xor_mod_256 (s1.setkey k1).key,
      xor_mod_256 (s2.setkey k2).key, hm, hp]
  refine ⟨hu, ?_⟩
  rw [← unscramble_byte, ← unscramble_byte]
  exact hu

/-- Witness for C17: the keys `0x12345678` and `0xABCD1678`, the positions
`5` and `0x305`, the byte `0xAA`. -/
theorem cipher_uses_low_bits_witness :
    (0x12345678 % 16384 = 0xABCD1678 % 16384 ∧ 5 % 256 = 0x305 % 256) ∧
    unscramble ((scrambledfile.ctor [] false 0).setkey 0x12345678).key 5
        (((0xAA : Byte).val : Nat) : Int)
      = unscramble ((scrambledfile.ctor [] false 0).setkey 0xABCD1678).key 0x305
        (((0xAA : Byte).val : Nat) : Int) :=
  ⟨by decide,
   (cipher_uses_low_bits (scrambledfile.ctor [] false 0) (scrambledfile.ctor [] false 0)
      0x12345678 0xABCD1678 5 0x305 0xAA (by decide) (by decide) (by decide) (by decide)).1⟩

/-- C18. For every source, key and starting position, no byte of the string
returned by `readstring()` is `0x00` or `0xFF`, and the string is no longer
than the number of bytes remaining in the source from the starting position. -/
theorem readstring_bytes_and_length (s : scrambledfile) (extra : Nat) :
    ∃ (str : List Byte) (s1 : scrambledfile),
      s.readstring (s.file.data.length - s.file.pos + 1 + extra) = some (str, s1) ∧
      (∀ b ∈ str, b ≠ 0 ∧ b ≠ 255) ∧
      str.length ≤ s.file.data.length - s.file.pos := by
  obtain ⟨str, s1, hrun, hbytes, hlen⟩ :=
    scrambledfile.readstringLoop_exits (s.file.data.length - s.file.pos) s [] (Nat.le_refl _)
  exact ⟨str, s1, by rw [← List.nil_append str]; exact hrun extra, hbytes, hlen⟩

/-- C19. `read(buf, off, len)`, given a destination of at least `len` bytes
(and `len < 2^31` when obfuscation is enabled), rewrites bytes among the first
`len` of the destination and nothing beyond them: the destination keeps its
size and every byte at an index `>= len` is unchanged. With obfuscation
enabled, for every source of length `n` with `off <= n < off + len`, each
destination byte at an index `i` with `n - off <= i < len` is replaced by the
transform of its previous content at position `off + i`. -/
theorem read_buffer_at_beyond_source (s : scrambledfile) (buf : List Byte) (off len : Nat)
    (hcap : len ≤ buf.length) (h31 : s.scrambled = true → len < 2147483648) :
    ∃ (cnt : Nat) (buf1 : List Byte) (s1 : scrambledfile),
      s.read_buffer_at buf off len = some (cnt, buf1, s1) ∧
      buf1.length = buf.length ∧
      (∀ i, len ≤ i → buf1[i]? = buf[i]?) ∧
      (s.scrambled = true → off ≤ s.file.data.length → s.file.data.length < off + len →
        ∀ i (hi : i < len), s.file.data.length - off ≤ i →
          buf1[i]?
            = some (u8 (((s.key ^^^ (off + i)) ^^^ (4294967295 - (buf[i]).val)) &&& 255 : Nat))) := by
  have hlen := ifstream.length_seekg_read_le s.file off len
  have hkeep : ∀ i, ((s.file.seekg off).read len).1.length ≤ i →
      (((s.file.seekg off).read len).1
        ++ buf.drop ((s.file.seekg off).read len).1.length)[i]? = buf[i]? := by
    intro i hi
    rw [List.getElem?_append_right hi, List.getElem?_drop]
    congr 1
    omega
  by_cases hs : s.scrambled = true
  · have hrun := scrambledfile.read_buffer_at_scrambled s buf off len hs hcap (h31 hs)
    refine ⟨_, _, _, hrun, ?_, ?_, ?_⟩
    · rw [length_unscrambleLoop, List.length_append, List.length_drop]; omega
    · intro i hi
      have hn : ¬ (0 + i < len) := by omega
      rw [getElem?_unscrambleLoop, hkeep i (by omega)]
      simp only [hn, if_false, Option.map_id']
    · intro _ hoff hshort i hi hge
      have hib : i < buf.length := by omega
      rw [getElem?_unscrambleLoop, hkeep i (by omega), List.getElem?_eq_getElem hib]
      simp only [Option.map_some', Nat.zero_add, hi, if_true, unscramble_byte]
  · have hs2 : s.scrambled = false := by simpa using hs
    have hrun := scrambledfile.read_buffer_at_plain s buf off len hs2 hcap
    refine ⟨_, _, _, hrun, ?_, ?_, ?_⟩
    · rw [List.length_append, List.length_drop]; omega
    · intro i hi
      exact hkeep i (by omega)
    · intro h; exact absurd h hs

/-- Witness for C19: the source `41 42` under the key 1 (mask `0xFFFFFFFB`),
four bytes asked for from offset 1 into the destination `07 08 09 0A 0B`:
the byte at index 4 is kept, the byte `09` at index 2 becomes its transform
at position 3. -/
theorem read_buffer_at_beyond_source_witness :
    ∃ (cnt : Nat) (buf1 : List Byte) (s1 : scrambledfile),
      ((scrambledfile.ctor [0x41, 0x42] false 0).setkey 1).read_buffer_at [7, 8, 9, 10, 11] 1 4
        = some (cnt, buf1, s1) ∧
      buf1.length = 5 ∧ buf1[4]? = some (11 : Byte) ∧
      buf1[2]? = some (u8 (((0xFFFFFFFB ^^^ (1 + 2)) ^^^ (4294967295 - 9)) &&& 255 : Nat)) :=
  let ⟨cnt, buf1, s1, h1, h2, h3, h4⟩ := read_buffer_at_beyond_source
    ((scrambledfile.ctor [0x41, 0x42] false 0).setkey 1) [7, 8, 9, 10, 11] 1 4
    (by decide) (fun _ => by decide)
  ⟨cnt, buf1, s1, h1, h2, h3 4 (by decide),
    h4 rfl (by decide) (by decide) 2 (by decide) (by decide)⟩

end Hpiutil
